import Mathlib

/-!
Shallow embedding of the threadiverse crawler (src/unnamed/part_000 is the
live crawl engine; src/cralwer.ts is an earlier prototype of the same engine;
src/utils/date.ts and src/utils/fetch.ts are its utilities).

Modelling conventions:
* instants are milliseconds as `Int` (date-fns arithmetic); ISO-8601
  timestamp strings are modelled post-`parseISO`, i.e. as their instants,
  and an absent field as `none`;
* JavaScript strings are Lean `String`s, with the character-level helpers
  below working on `List Char`;
* network effects are modelled by passing the responses a server would give
  (a `World`) into the pure handler; fallible steps return `Except`.
-/

/-- One day in milliseconds, as date-fns `subDays` counts it. -/
def dayMs : Int := 86400000

/-- A closed time interval (date-fns `Interval`): `start` and `stop` are
instants in milliseconds (`stop` is the field date-fns spells `end`). -/
structure DateInterval where
  start : Int
  stop : Int
deriving DecidableEq, Repr

/-- date-fns `subDays date n`: the instant `n` whole days earlier. -/
def subDays (t : Int) (n : Nat) : Int := t - n * dayMs

/-- The constant `ONE_MONTH_AGO` of src/utils/date.ts: the interval from 30
days before module load to module load. It is computed once, when the module
is loaded, and never refreshed; `loadTime` is that module-load instant (the
two `new Date()` calls in the source are microseconds apart and modelled as
one instant). -/
def oneMonthAgo (loadTime : Int) : DateInterval :=
  { start := subDays loadTime 30, stop := loadTime }

/-- date-fns `isWithinInterval`: membership in the closed interval. -/
def isWithinInterval (d : Int) (iv : DateInterval) : Bool :=
  iv.start ≤ d && d ≤ iv.stop

/-- src/utils/date.ts `dateLessThanOneMonthAgo`: membership of a parsed date
in the fixed `ONE_MONTH_AGO` interval. -/
def dateLessThanOneMonthAgo (iv : DateInterval) (d : Int) : Bool :=
  isWithinInterval d iv

/-- Whitespace as JavaScript `String.prototype.trim` strips it (restricted to
the ASCII whitespace the crawler can meet in practice). -/
def isWs (c : Char) : Bool := c.isWhitespace

/-- JavaScript `trim()`: drop leading and trailing whitespace. -/
def trimList (l : List Char) : List Char :=
  List.rdropWhile isWs (l.dropWhile isWs)

/-- JavaScript `replace(/\/+$/, "")`: remove the maximal run of slashes at
the end of the string. -/
def dropTrailingSlashes : List Char → List Char
  | [] => []
  | c :: cs =>
    match dropTrailingSlashes cs with
    | [] => if c = '/' then [] else [c]
    | r :: rs => c :: r :: rs

/-- JavaScript `startsWith("http")`. -/
def startsWithHttp : List Char → Bool
  | 'h' :: 't' :: 't' :: 'p' :: _ => true
  | _ => false

/-- The characters of the literal prepended by the normalizer. -/
def httpsSchemeChars : List Char :=
  'h' :: 't' :: 't' :: 'p' :: 's' :: ':' :: '/' :: '/' :: []

/-- Character-level body of `normalizeInstance` from src/unnamed/part_000
(lines 20-26): trim, prepend the https scheme when the string does not start
with "http", then strip trailing slashes. -/
def normalizeInstanceL (l : List Char) : List Char :=
  dropTrailingSlashes
    (if startsWithHttp (trimList l) then trimList l else httpsSchemeChars ++ trimList l)

/-- The crawl engine's `normalizeInstance` (src/unnamed/part_000, lines
20-26). -/
def normalizeInstance (s : String) : String :=
  String.mk (normalizeInstanceL s.toList)

/-- Character-level body of the prototype's `normalizeInstance`
(src/cralwer.ts, lines 28-34): same trim and scheme step, but no trailing
slash stripping. -/
def normalizeInstanceCrawlerL (l : List Char) : List Char :=
  if startsWithHttp (trimList l) then trimList l else httpsSchemeChars ++ trimList l

/-- The prototype's `normalizeInstance` (src/cralwer.ts, lines 28-34). -/
def normalizeInstanceCrawler (s : String) : String :=
  String.mk (normalizeInstanceCrawlerL s.toList)

/-- `isSupportedSoftware` from src/unnamed/part_000 (lines 10-18): the
trimmed, lowercased software name must be lemmy or piefed. -/
def isSupportedSoftware (s : String) : Bool :=
  let t := String.mk ((trimList s.toList).map Char.toLower)
  t = "lemmy" || t = "piefed"

/-- Qualification threshold `MIN_MAU` (src/unnamed/part_000, line 8). -/
def MIN_MAU : Int := 20

/-- One entry of a `federated_instances.linked` peer list
(`federatedInstancesSchema`, src/unnamed/part_000 lines 53-62): `domain` is
required, the rest optional. Timestamps are modelled as parsed instants. -/
structure PeerLink where
  domain : String
  software : Option String
  published : Option Int
  updated : Option Int
deriving DecidableEq, Repr

/-- The per-link admission test of `explore` (src/unnamed/part_000, lines
93-100): software present and supported, and a timestamp (`updated`, falling
back to `published` via `??`) present and inside the fixed recency
interval. -/
def linkFilter (iv : DateInterval) (l : PeerLink) : Bool :=
  (match l.software with
   | none => false
   | some sw => isSupportedSoftware sw) &&
  (match l.updated.orElse (fun _ => l.published) with
   | none => false
   | some d => dateLessThanOneMonthAgo iv d)

/-- The addresses `explore` hands to `requestQueue.addRequests`: the
admitted links' domains, normalized, in list order. -/
def exploreDiscovered (iv : DateInterval) (links : List PeerLink) : List String :=
  (links.filter (linkFilter iv)).map (fun l => normalizeInstance l.domain)

/-- The raw body of `/nodeinfo/2.1` before validation: a software name and
version string. -/
structure RawNodeInfo where
  name : String
  version : String
deriving DecidableEq, Repr

/-- The two software kinds admitted by `nodeInfoSchema`'s enum. -/
inductive Software
  | lemmy
  | piefed
deriving DecidableEq, Repr

/-- Validated node metadata. -/
structure NodeInfo where
  name : Software
  version : String
deriving DecidableEq, Repr

/-- The error taxonomy of a failed protocol request: transport timeout,
connection failure, non-2xx status, or response-shape mismatch (a zod parse
failure). -/
inductive RequestError
  | timeout
  | connFailure
  | httpStatus (code : Nat)
  | shapeMismatch
deriving DecidableEq, Repr

/-- `nodeInfoSchema.parse` (src/unnamed/part_000, lines 46-51): the enum
accepts exactly the strings "lemmy" and "piefed"; any other name is a shape
mismatch (a thrown ZodError). -/
def parseNodeInfo (r : RawNodeInfo) : Except RequestError NodeInfo :=
  if r.name = "lemmy" then .ok { name := .lemmy, version := r.version }
  else if r.name = "piefed" then .ok { name := .piefed, version := r.version }
  else .error .shapeMismatch

/-- The fields of a validated `/api/v3/site` body used by the handler
(`lemmySiteV3` and the identical `pieFedSiteV3`, src/unnamed/part_000 lines
28-44). -/
structure SiteView where
  description : Option String
  icon : Option String
  registration_mode : String
  private_instance : Bool
  users_active_month : Int
deriving DecidableEq, Repr

/-- What one server answers on the three endpoints the handler can fetch:
`/nodeinfo/2.1`, `/api/v3/federated_instances` and `/api/v3/site`. An
`Except.error` is any failed request (timeout, connection failure, bad
status, or a body failing its schema). -/
structure Server where
  nodeInfo : Except RequestError RawNodeInfo
  federated : Except RequestError (List PeerLink)
  site : Except RequestError SiteView

/-- The network, as the handler observes it: server responses keyed by the
normalized instance URL. -/
def World : Type := String → Server

/-- A Result Store record (`type Instance`, src/unnamed/part_000 lines
64-71). -/
structure Instance where
  url : String
  host : String
  description : Option String
  icon : Option String
  software : Software
  registrationMode : String
deriving DecidableEq, Repr

/-- Character-level model of `new URL(u).host`: strip the scheme, then take
the authority up to the first path, query or fragment delimiter, lowercased
(ports are kept, as `.host` keeps them; userinfo does not occur in crawler
URLs and is not modelled). -/
def hostOfL (l : List Char) : List Char :=
  let rest :=
    match l with
    | 'h' :: 't' :: 't' :: 'p' :: 's' :: ':' :: '/' :: '/' :: r => r
    | 'h' :: 't' :: 't' :: 'p' :: ':' :: '/' :: '/' :: r => r
    | r => r
  (rest.takeWhile (fun c => !(c = '/' || c = '?' || c = '#'))).map Char.toLower

/-- `new URL(instance).host` (src/unnamed/part_000, line 104). -/
def hostOf (u : String) : String := String.mk (hostOfL u.toList)

/-- What one invocation of the request handler produced: the addresses it
handed to `requestQueue.addRequests` and the records it pushed to the
Dataset (zero or one). -/
structure HandlerOutcome where
  discovered : List String
  pushed : List Instance
deriving DecidableEq, Repr

/-- JavaScript `version.startsWith("1.")` (src/unnamed/part_000, line
113). -/
def startsWithOneDot : List Char → Bool
  | '1' :: '.' :: _ => true
  | _ => false

/-- The qualification test of src/unnamed/part_000 lines 120 and 137:
active-monthly users at or above `MIN_MAU`, and not a private instance. -/
def qualifies (sv : SiteView) : Bool :=
  MIN_MAU ≤ sv.users_active_month && !sv.private_instance

/-- The Instance record pushed for a qualifying server. -/
def mkInstance (url host : String) (sw : Software) (sv : SiteView) : Instance :=
  { url := url, host := host, description := sv.description, icon := sv.icon,
    software := sw, registrationMode := sv.registration_mode }

/-- The branch shared by lemmy (non-1.x) and piefed (src/unnamed/part_000
lines 116-129 and 133-146): fetch the peer list, explore it, fetch the
site, and push a record iff the server qualifies. -/
def fullBranch (iv : DateInterval) (srv : Server) (url host : String)
    (sw : Software) : Except RequestError HandlerOutcome :=
  match srv.federated with
  | .error e => .error e
  | .ok links =>
    match srv.site with
    | .error e => .error e
    | .ok sv =>
      .ok { discovered := exploreDiscovered iv links,
            pushed := if qualifies sv then [mkInstance url host sw sv] else [] }

/-- The body of the request handler once the address is normalized (the
source's `instance` local): fetch and validate nodeinfo, then dispatch on
software name and version (src/unnamed/part_000, lines 102-149). -/
def handleInstance (iv : DateInterval) (w : World) (inst : String) :
    Except RequestError HandlerOutcome :=
  match (w inst).nodeInfo with
  | .error e => .error e
  | .ok raw =>
    match parseNodeInfo raw with
    | .error e => .error e
    | .ok ni =>
      match ni.name with
      | .lemmy =>
        if startsWithOneDot ni.version.toList then
          .ok { discovered := [], pushed := [] }
        else fullBranch iv (w inst) inst (hostOf inst) .lemmy
      | .piefed => fullBranch iv (w inst) inst (hostOf inst) .piefed

/-- The `requestHandler` of src/unnamed/part_000 (lines 84-150) for one
queued address: normalize, derive the host, fetch and validate nodeinfo,
then dispatch on software name and version. Any request failure or schema
mismatch propagates out of the handler (there is no try/catch in it). -/
def requestHandler (iv : DateInterval) (w : World) (reqUrl : String) :
    Except RequestError HandlerOutcome :=
  handleInstance iv w (normalizeInstance reqUrl)

/-- The crawl's shared state: `ledger` is the set of request keys ever
added to the crawlee `RequestQueue` (its uniqueKey dedup: a key is the
exact URL string handed to `addRequests`), `pending` the not-yet-processed
frontier in FIFO order, `store` the Dataset contents in push order. -/
structure CrawlState where
  ledger : List String
  pending : List String
  store : List Instance
deriving DecidableEq, Repr

/-- One `addRequests` of a single address: the RequestQueue drops a key it
has ever seen, otherwise records it and appends it to the frontier. -/
def tryEnqueue (st : CrawlState) (addr : String) : CrawlState :=
  if addr ∈ st.ledger then st
  else { st with ledger := addr :: st.ledger, pending := st.pending ++ [addr] }

/-- `addRequests` over a list, left to right. -/
def enqueueAll (st : CrawlState) (addrs : List String) : CrawlState :=
  addrs.foldl tryEnqueue st

/-- Processing one dequeued address: on handler success the discovered
addresses are enqueued (deduplicated against the ledger) and the pushed
records appended to the store; a handler failure leaves the state untouched
(crawlee retries such a request with the same deterministic world and the
same outcome, then drops it: no store entry, no re-enqueue). -/
def stepAddr (iv : DateInterval) (w : World) (st : CrawlState) (addr : String) :
    CrawlState :=
  match requestHandler iv w addr with
  | .error _ => st
  | .ok out =>
    let st1 := enqueueAll st out.discovered
    { st1 with store := st1.store ++ out.pushed }

/-- The crawl loop, fuel-bounded: dequeue the frontier head, process it,
repeat until the frontier drains (or fuel runs out, standing in for the
global deadline). Returns the final state and the list of addresses
processed, in order. -/
def crawlTrace (iv : DateInterval) (w : World) :
    Nat → CrawlState → CrawlState × List String
  | 0, st => (st, [])
  | fuel + 1, st =>
    match st.pending with
    | [] => (st, [])
    | addr :: rest =>
      let r := crawlTrace iv w fuel (stepAddr iv w { st with pending := rest } addr)
      (r.1, addr :: r.2)

/-- A whole run from a seed list (the `crawler.run([...])` call): seeds are
enqueued, then the loop runs. -/
def runCrawlTrace (iv : DateInterval) (w : World) (seeds : List String)
    (fuel : Nat) : CrawlState × List String :=
  crawlTrace iv w fuel (enqueueAll { ledger := [], pending := [], store := [] } seeds)

/-- The snapshot `write` of src/unnamed/part_000 (lines 153-160) without its
file-system effects: `_.sortBy(items, 'host')`, a stable ascending sort of
the current store contents by host, recomputed from the store alone. -/
def writeSnapshot (items : List Instance) : List Instance :=
  items.mergeSort (fun a b => decide (a.host ≤ b.host))

/-- An HTTP response before validation. -/
structure RawResponse where
  status : Nat
  body : String
deriving DecidableEq, Repr

/-- What a single HTTP attempt can meet on the wire: the request times out,
the connection fails, or a response arrives after `arrivalMs`
milliseconds. -/
inductive FetchOutcome
  | ok (r : RawResponse)
  | connError
deriving DecidableEq, Repr

/-- `fetchWithTimeout` of src/utils/fetch.ts: one fetch guarded by an abort
timer whose default is 5000 ms (the `timeoutMs = 5000` default parameter);
if the response has not arrived when the timer fires, the request is
aborted and an error thrown; a connection failure is rethrown as is. The
status of a response that did arrive is not inspected here. -/
def fetchWithTimeout (outcome : FetchOutcome) (arrivalMs : Nat)
    (timeoutMs : Nat := 5000) : Except RequestError RawResponse :=
  if timeoutMs ≤ arrivalMs then .error .timeout
  else
    match outcome with
    | .ok r => .ok r
    | .connError => .error .connFailure

/-- JavaScript success statuses. -/
def is2xx (n : Nat) : Bool := 200 ≤ n && n < 300

/-- Modelled from the spec: the Protocol Client `get(url, expectedShape)`
(src/unnamed/part_000 lines 85-91 and src/cralwer.ts lines 74-84). The
timed transport and its non-2xx signalling live in library code (crawlee's
`sendRequest`, the platform `fetch`) that is not under src/, so that layer
follows the spec's interface: a per-request timeout (default 5000 ms, the
literal in src/utils/fetch.ts and src/cralwer.ts line 77), and a
`RequestError` carrying the cause on timeout, connection failure or non-2xx
status. The schema validation step (`schema.parse`) is from the source:
a body the expected shape rejects raises a shape mismatch. The function
makes exactly one attempt: no retry happens at this layer. -/
def getResponse {α : Type} (outcome : FetchOutcome) (arrivalMs : Nat)
    (parse : String → Option α) : Except RequestError α :=
  match fetchWithTimeout outcome arrivalMs with
  | .error e => .error e
  | .ok r =>
    if is2xx r.status then
      match parse r.body with
      | some a => .ok a
      | none => .error .shapeMismatch
    else .error (.httpStatus r.status)

/-- The crawler configuration of src/unnamed/part_000 lines 78-84. -/
structure CrawlerConfig where
  maxConcurrency : Nat
  minConcurrency : Nat
  requestHandlerTimeoutSecs : Nat
  maxRequestRetries : Nat
deriving DecidableEq, Repr

/-- The literal options passed to `new BasicCrawler` in
src/unnamed/part_000. -/
def crawlerConfig : CrawlerConfig :=
  { maxConcurrency := 50, minConcurrency := 5,
    requestHandlerTimeoutSecs := 10, maxRequestRetries := 3 }

/-- How one attempt at a task can end: the handler returns, raises a
request error, or is aborted by the per-task timeout. -/
inductive AttemptOutcome
  | ok (out : HandlerOutcome)
  | failed (e : RequestError)
  | timedOut
deriving DecidableEq, Repr

/-- The final fate of one task. -/
inductive TaskResult
  | completed (out : HandlerOutcome)
  | dropped
deriving DecidableEq, Repr

/-- Modelled from the spec: the Concurrency Controller's per-task retry
policy (spec section 4.3; the machinery is crawlee's, library code not
under src/, while its limits are the src options `requestHandlerTimeoutSecs
:= 10` and `maxRequestRetries := 3`). `attempts k` is what the k-th attempt
at the task does; a failed or timed-out attempt is retried while retries
remain, and when they run out the task is dropped. -/
def runTaskFrom (attempts : Nat → AttemptOutcome) : Nat → Nat → TaskResult
  | k, remaining =>
    match attempts k with
    | .ok out => .completed out
    | _ =>
      match remaining with
      | 0 => .dropped
      | r + 1 => runTaskFrom attempts (k + 1) r

/-- One task run under the configured retry limit. -/
def runTask (attempts : Nat → AttemptOutcome) : TaskResult :=
  runTaskFrom attempts 0 crawlerConfig.maxRequestRetries

/-- The snapshot interval of src/unnamed/part_000 line 164 (ms). -/
def SNAPSHOT_INTERVAL_MS : Nat := 10000

/-- The global crawl deadline of src/unnamed/part_000 line 170 (ms). -/
def DEADLINE_MS : Nat := 20 * 60 * 1000

/-- The observable timer events of the crawl lifecycle (src/unnamed/part_000
lines 162-181). -/
inductive CrawlEvent
  | periodicWrite (t : Nat)
  | deadlineFired (t : Nat)
  | finalWrite (t : Nat)
deriving DecidableEq, Repr

/-- The timer behaviour of `crawl` (src/unnamed/part_000 lines 162-181),
observed up to `horizonMs`. `drainMs` is when `crawler.run` would resolve
naturally (frontier empty, no task in flight). The interval `id2` fires a
periodic write every 10 s; the timeout `id1` fires at the 20-minute deadline
unless `clearTimeout(id1)` ran first, and its handler clears the interval
and aborts the pool; after `crawler.run` resolves, the code runs
`clearTimeout(id1)` and one final `write()`. Only the deadline handler ever
clears the interval. A timer due at the same instant as the deadline fires
first, as the interval was registered first. -/
def crawlEvents (drainMs horizonMs : Nat) : List CrawlEvent :=
  let clearedAt : Option Nat :=
    if drainMs < DEADLINE_MS then none else some DEADLINE_MS
  let resolveMs := min drainMs DEADLINE_MS
  let ticks : List CrawlEvent :=
    (List.range (horizonMs / SNAPSHOT_INTERVAL_MS)).filterMap (fun k =>
      let t := (k + 1) * SNAPSHOT_INTERVAL_MS
      if (match clearedAt with
          | none => true
          | some c => decide (t ≤ c)) then
        some (CrawlEvent.periodicWrite t)
      else none)
  ticks ++
    (match clearedAt with
     | none => []
     | some c => [CrawlEvent.deadlineFired c]) ++
    [CrawlEvent.finalWrite resolveMs]

/-- Whether an event is the final snapshot write. -/
def isFinalWrite : CrawlEvent → Bool
  | .finalWrite _ => true
  | _ => false

/-- Whether an event is a periodic snapshot strictly after instant `t`. -/
def isPeriodicAfter (t : Nat) : CrawlEvent → Bool
  | .periodicWrite u => decide (t < u)
  | _ => false

/-- The Recency Filter as claim C3 words it: the trailing 30-day window is
measured from the wall clock at the moment the filter is evaluated. Stated
from the claim for comparison with the source's `linkFilter`, whose window
is frozen at module load. -/
def linkAdmittedByClaim (evalNow : Int) (l : PeerLink) : Bool :=
  (match l.software with
   | none => false
   | some sw => isSupportedSoftware sw) &&
  (match l.updated.orElse (fun _ => l.published) with
   | none => false
   | some d => subDays evalNow 30 ≤ d && d ≤ evalNow)

/-- A supported peer whose `updated` instant is two days after module load:
zero days old if the filter runs two days into the crawl. -/
def freshPeer : PeerLink :=
  { domain := "c.example", software := some "lemmy", published := none,
    updated := some (2 * dayMs) }

/-- A supported peer sitting 29 days before the load-time reference. -/
def boundaryPeer : PeerLink :=
  { domain := "d.example", software := some "lemmy", published := none,
    updated := some (subDays 0 29) }

/-- A public qualifying site: 50 active-month users, not private. -/
def svPublic : SiteView :=
  { description := none, icon := none, registration_mode := "Open",
    private_instance := false, users_active_month := 50 }

/-- The same site marked private. -/
def svPrivate : SiteView := { svPublic with private_instance := true }

/-- A site on the inclusive qualification boundary: exactly 20 users. -/
def svBoundary : SiteView := { svPublic with users_active_month := 20 }

/-- A piefed server with no peers and the boundary site. -/
def piefedBoundaryServer : Server :=
  { nodeInfo := .ok { name := "piefed", version := "1.0.0" },
    federated := .ok [], site := .ok svBoundary }

/-- A network in which every server reports mastodon software. -/
def mastodonWorld : World :=
  fun _ =>
    { nodeInfo := .ok { name := "mastodon", version := "4.2.0" },
      federated := .ok [], site := .ok svPublic }

/-- A network of lemmy 1.4.0 servers. -/
def lemmy14World : World :=
  fun _ =>
    { nodeInfo := .ok { name := "lemmy", version := "1.4.0" },
      federated := .ok [], site := .ok svPublic }

/-- A lemmy 2.0.0 server with no peers and a public qualifying site. -/
def lemmyPublicServer : Server :=
  { nodeInfo := .ok { name := "lemmy", version := "2.0.0" },
    federated := .ok [], site := .ok svPublic }

/-- A network of such lemmy 2.0.0 servers. -/
def lemmyWorld : World := fun _ => lemmyPublicServer

/-- The crawl-state invariant maintained by the frontier discipline: pending
entries are pairwise distinct and every pending entry was recorded in the
ledger when it was enqueued. -/
def StateOk (st : CrawlState) : Prop :=
  st.pending.Nodup ∧ ∀ a ∈ st.pending, a ∈ st.ledger

/-- A recently active lemmy peer advertised under a bare domain. -/
def peerBareDomain : PeerLink :=
  { domain := "b.example", software := some "lemmy", published := none,
    updated := some (subDays 0 1) }

/-- The same host advertised with an explicit http scheme: after
normalization it is a different request-queue key. -/
def peerHttpDomain : PeerLink := { peerBareDomain with domain := "http://b.example" }

/-- A seed server that is itself private (so it pushes nothing) and lists
the same peer host twice, once bare and once with the http scheme. -/
def seedServer : Server :=
  { nodeInfo := .ok { name := "lemmy", version := "2.0.0" },
    federated := .ok [peerBareDomain, peerHttpDomain], site := .ok svPrivate }

/-- The network for the duplicate-host run: the seed lists both spellings,
every other address is a qualifying lemmy server with no peers. -/
def dupHostWorld : World :=
  fun addr => if addr = "https://a.example" then seedServer else lemmyPublicServer

/-- The head of a `dropWhile` result never satisfies the dropped predicate. -/
theorem head_of_dropWhile_not {p : α → Bool} {l : List α} {c : α}
    (h : (l.dropWhile p).head? = some c) : p c = false := by
  have hm := List.head?_dropWhile_not p l
  rw [h] at hm
  exact hm

/-- A nonempty list whose head fails the predicate is untouched by
`dropWhile`. -/
theorem dropWhile_eq_self_of_head {p : α → Bool} {l : List α}
    (h : ∀ c, l.head? = some c → p c = false) : l.dropWhile p = l := by
  cases l with
  | nil => rfl
  | cons a as =>
    have ha := h a rfl
    simp [List.dropWhile, ha]

/-- The last element of an `rdropWhile` result never satisfies the dropped
predicate. -/
theorem getLast_of_rdropWhile_not {p : α → Bool} {l : List α} {c : α}
    (h : (List.rdropWhile p l).getLast? = some c) : p c = false := by
  have hne : List.rdropWhile p l ≠ [] := by
    intro hnil
    rw [hnil] at h
    exact (Option.noConfusion h)
  have hl := List.rdropWhile_last_not p l hne
  rw [List.getLast?_eq_getLast _ hne] at h
  have : (List.rdropWhile p l).getLast hne = c := Option.some.inj h
  rw [this] at hl
  exact Bool.of_not_eq_true hl

/-- A list whose last element fails the predicate is untouched by
`rdropWhile`. -/
theorem rdropWhile_eq_self_of_getLast {p : α → Bool} {l : List α}
    (h : ∀ c, l.getLast? = some c → p c = false) : List.rdropWhile p l = l := by
  rw [List.rdropWhile_eq_self_iff]
  intro hl hp
  have := h (l.getLast hl) (List.getLast?_eq_getLast _ hl)
  rw [hp] at this
  exact Bool.noConfusion this

/-- A trimmed list is unchanged by a second trim pass when its head and last
characters are not whitespace. -/
theorem trimList_eq_self {l : List Char}
    (hh : ∀ c, l.head? = some c → isWs c = false)
    (hl : ∀ c, l.getLast? = some c → isWs c = false) : trimList l = l := by
  unfold trimList
  rw [dropWhile_eq_self_of_head hh]
  exact rdropWhile_eq_self_of_getLast hl

/-- The last character of a trimmed list is never whitespace. -/
theorem trimList_getLast_not_ws {l : List Char} {c : Char}
    (h : (trimList l).getLast? = some c) : isWs c = false :=
  getLast_of_rdropWhile_not h

/-- Stripping trailing slashes from a list with a non-slash head keeps that
head. -/
theorem dropTrailingSlashes_cons_ne {c : Char} (hc : ¬c = '/') (cs : List Char) :
    ∃ r, dropTrailingSlashes (c :: cs) = c :: r := by
  unfold dropTrailingSlashes
  cases h : dropTrailingSlashes cs with
  | nil => exact ⟨[], by simp [hc]⟩
  | cons r rs => exact ⟨r :: rs, rfl⟩

/-- The result of stripping trailing slashes never ends in a slash. -/
theorem dropTrailingSlashes_getLast {l : List Char} {c : Char}
    (h : (dropTrailingSlashes l).getLast? = some c) : ¬c = '/' := by
  induction l with
  | nil => simp [dropTrailingSlashes] at h
  | cons a as ih =>
    rw [dropTrailingSlashes] at h
    cases hrec : dropTrailingSlashes as with
    | nil =>
      rw [hrec] at h
      by_cases ha : a = '/'
      · simp [ha] at h
      · simp [ha] at h
        subst h
        exact ha
    | cons r rs =>
      rw [hrec] at h
      rw [List.getLast?_cons_cons] at h
      rw [← hrec] at h
      exact ih h

/-- A list not ending in a slash is unchanged by the stripping. -/
theorem dropTrailingSlashes_eq_self {l : List Char}
    (h : ∀ c, l.getLast? = some c → ¬c = '/') : dropTrailingSlashes l = l := by
  induction l with
  | nil => rfl
  | cons a as ih =>
    rw [dropTrailingSlashes]
    cases has : as with
    | nil =>
      have := h a (by rw [has]; rfl)
      simp [has, dropTrailingSlashes, this]
    | cons b bs =>
      have hrec : dropTrailingSlashes as = as := by
        apply ih
        intro c hc
        apply h c
        rw [has]
        rw [has] at hc
        rw [List.getLast?_cons_cons]
        exact hc
      rw [has] at hrec
      rw [hrec]

/-- A list that starts with http is a cons of those four characters. -/
theorem startsWithHttp_exists {l : List Char} (h : startsWithHttp l = true) :
    ∃ rest, l = 'h' :: 't' :: 't' :: 'p' :: rest := by
  unfold startsWithHttp at h
  split at h
  · next rest => exact ⟨rest, rfl⟩
  · exact Bool.noConfusion h

/-- Stripping trailing slashes preserves an http prefix. -/
theorem dropTrailingSlashes_http {l : List Char} (h : startsWithHttp l = true) :
    startsWithHttp (dropTrailingSlashes l) = true := by
  obtain ⟨rest, rfl⟩ := startsWithHttp_exists h
  obtain ⟨r, hr⟩ := dropTrailingSlashes_cons_ne (by decide) rest (c := 'p')
  have h3 : dropTrailingSlashes ('t' :: 'p' :: rest) = 't' :: 'p' :: r := by
    rw [dropTrailingSlashes, hr]
  have h2 : dropTrailingSlashes ('t' :: 't' :: 'p' :: rest) = 't' :: 't' :: 'p' :: r := by
    rw [dropTrailingSlashes, h3]
  have h1 : dropTrailingSlashes ('h' :: 't' :: 't' :: 'p' :: rest) =
      'h' :: 't' :: 't' :: 'p' :: r := by
    rw [dropTrailingSlashes, h2]
  rw [h1]
  rfl

/-- The first character of a trimmed list is never whitespace. -/
theorem trimList_head_not_ws {l : List Char} {c : Char}
    (h : (trimList l).head? = some c) : isWs c = false := by
  obtain ⟨t, ht⟩ := List.rdropWhile_prefix isWs (l.dropWhile isWs)
  cases hl : trimList l with
  | nil =>
    rw [hl] at h
    exact Option.noConfusion h
  | cons a as =>
    rw [hl] at h
    have hac : a = c := Option.some.inj h
    have ht2 : (a :: as) ++ t = l.dropWhile isWs := by
      rw [← hl]
      exact ht
    have hhead : (l.dropWhile isWs).head? = some a := by
      rw [← ht2]
      rfl
    have := head_of_dropWhile_not hhead
    rw [hac] at this
    exact this

/-- Trimming is idempotent. -/
theorem trimList_idem (l : List Char) : trimList (trimList l) = trimList l := by
  show List.rdropWhile isWs ((trimList l).dropWhile isWs) = trimList l
  rw [dropWhile_eq_self_of_head (fun _ hc => trimList_head_not_ws hc)]
  exact List.rdropWhile_idempotent _ _

/-- The normalizer's output always starts with the four characters http. -/
theorem normalizeInstanceL_http (l : List Char) :
    startsWithHttp (normalizeInstanceL l) = true := by
  rw [normalizeInstanceL]
  by_cases h : startsWithHttp (trimList l) = true
  · rw [if_pos h]
    exact dropTrailingSlashes_http h
  · rw [if_neg (by simp [h])]
    apply dropTrailingSlashes_http
    rfl

/-- The normalizer's output never ends in a slash. -/
theorem normalizeInstanceL_no_slash {l : List Char} {c : Char}
    (h : (normalizeInstanceL l).getLast? = some c) : ¬c = '/' := by
  rw [normalizeInstanceL] at h
  exact dropTrailingSlashes_getLast h

/-- The normalizer is idempotent on any input whose normalized form does not
end in whitespace. -/
theorem normalizeInstanceL_idem {l : List Char}
    (hws : ∀ c, (normalizeInstanceL l).getLast? = some c → isWs c = false) :
    normalizeInstanceL (normalizeInstanceL l) = normalizeInstanceL l := by
  have hhttp : startsWithHttp (normalizeInstanceL l) = true := normalizeInstanceL_http l
  have hhead : ∀ c, (normalizeInstanceL l).head? = some c → isWs c = false := by
    intro c hc
    obtain ⟨rest, hrest⟩ := startsWithHttp_exists hhttp
    rw [hrest] at hc
    have hch : c = 'h' := (Option.some.inj hc).symm
    rw [hch]
    decide
  have htrim : trimList (normalizeInstanceL l) = normalizeInstanceL l :=
    trimList_eq_self hhead hws
  have hslash : ∀ c, (normalizeInstanceL l).getLast? = some c → ¬c = '/' :=
    fun _ hc => normalizeInstanceL_no_slash hc
  conv_lhs => rw [normalizeInstanceL]
  rw [htrim, if_pos hhttp]
  exact dropTrailingSlashes_eq_self hslash

/-- The prototype's normalizer is idempotent on every input. -/
theorem normalizeInstanceCrawlerL_idem (l : List Char) :
    normalizeInstanceCrawlerL (normalizeInstanceCrawlerL l) = normalizeInstanceCrawlerL l := by
  by_cases h : startsWithHttp (trimList l) = true
  · have hx : normalizeInstanceCrawlerL l = trimList l := by
      rw [normalizeInstanceCrawlerL, if_pos h]
    rw [hx, normalizeInstanceCrawlerL, trimList_idem, if_pos h]
  · have hx : normalizeInstanceCrawlerL l = httpsSchemeChars ++ trimList l := by
      rw [normalizeInstanceCrawlerL, if_neg h]
    have hlast : ∀ c, (httpsSchemeChars ++ trimList l).getLast? = some c →
        isWs c = false := by
      intro c hc
      rw [List.getLast?_append] at hc
      cases ht : (trimList l).getLast? with
      | none =>
        rw [ht] at hc
        simp only [Option.or] at hc
        have : c = '/' := by
          have : httpsSchemeChars.getLast? = some '/' := by decide
          rw [this] at hc
          exact (Option.some.inj hc).symm
        rw [this]
        decide
      | some d =>
        rw [ht] at hc
        simp only [Option.or] at hc
        have hdc : d = c := Option.some.inj hc
        rw [← hdc]
        exact trimList_getLast_not_ws ht
    have hhead : ∀ c, (httpsSchemeChars ++ trimList l).head? = some c →
        isWs c = false := by
      intro c hc
      have : c = 'h' := (Option.some.inj hc).symm
      rw [this]
      decide
    rw [hx, normalizeInstanceCrawlerL, trimList_eq_self hhead hlast]
    rw [if_pos (show startsWithHttp (httpsSchemeChars ++ trimList l) = true from rfl)]

/-- C4: the claim's three parts do not all hold of the source. On the input
"foo /" the crawl engine's normalizer is not idempotent (the first pass
yields a string ending in a space, the second also trims that space); on
"httpfoo" the output carries no scheme at all (the source only tests
`startsWith("http")`); and the prototype's variant keeps trailing
slashes. -/
theorem c4_normalize_counterexample :
    normalizeInstance (normalizeInstance "foo /") ≠ normalizeInstance "foo /" ∧
    normalizeInstance "httpfoo" = "httpfoo" ∧
    ':' ∉ "httpfoo".toList ∧
    normalizeInstanceCrawler "foo/" = "https://foo/" := by
  refine ⟨by decide, by decide, by decide, by decide⟩

/-- C4 amended: the crawl engine's normalizer always yields a string that
begins with the literal characters http (gaining the https scheme exactly
when the trimmed input does not already start with "http") and never ends in
a slash, and it is idempotent on every input whose normalized form does not
end in whitespace; the prototype's variant is idempotent on every input (it
does not strip trailing slashes). -/
theorem c4_amended_normalize :
    (∀ s : String, startsWithHttp (normalizeInstance s).toList = true) ∧
    (∀ s : String, ∀ c, (normalizeInstance s).toList.getLast? = some c → ¬c = '/') ∧
    (∀ s : String,
      (∀ c, (normalizeInstance s).toList.getLast? = some c → isWs c = false) →
      normalizeInstance (normalizeInstance s) = normalizeInstance s) ∧
    (∀ s : String,
      normalizeInstanceCrawler (normalizeInstanceCrawler s) = normalizeInstanceCrawler s) := by
  refine ⟨fun s => normalizeInstanceL_http s.toList,
          fun s c hc => normalizeInstanceL_no_slash hc,
          fun s h => ?_,
          fun s => ?_⟩
  · exact congrArg String.mk (normalizeInstanceL_idem h)
  · exact congrArg String.mk (normalizeInstanceCrawlerL_idem s.toList)

/-- C4 witness: the idempotency clause applied at a concrete address. -/
theorem c4_amended_normalize_witness :
    normalizeInstance (normalizeInstance " lemmy.world/ ") =
      normalizeInstance " lemmy.world/ " :=
  c4_amended_normalize.2.2.1 " lemmy.world/ " (by decide)

/-- C10: the recency check is membership in the closed interval from 30 days
before the load-time reference up to that reference, so any instant strictly
after the reference (a future-dated `updated` or `published` value) is
rejected. -/
theorem c10_future_dates_excluded (t d : Int) :
    (dateLessThanOneMonthAgo (oneMonthAgo t) d = true ↔ subDays t 30 ≤ d ∧ d ≤ t) ∧
    (t < d → dateLessThanOneMonthAgo (oneMonthAgo t) d = false) := by
  have hiff : dateLessThanOneMonthAgo (oneMonthAgo t) d = true ↔
      subDays t 30 ≤ d ∧ d ≤ t := by
    unfold dateLessThanOneMonthAgo isWithinInterval oneMonthAgo
    simp
  refine ⟨hiff, fun h => ?_⟩
  by_contra hb
  have htrue : dateLessThanOneMonthAgo (oneMonthAgo t) d = true := by
    cases hx : dateLessThanOneMonthAgo (oneMonthAgo t) d
    · exact absurd hx hb
    · rfl
  have hd := (hiff.mp htrue).2
  omega

/-- C10 witness: a date five milliseconds past the reference is excluded. -/
theorem c10_future_dates_excluded_witness :
    dateLessThanOneMonthAgo (oneMonthAgo 0) 5 = false :=
  (c10_future_dates_excluded 0 5).2 (by decide)

/-- C3: with the module loaded at instant 0 and the filter evaluated two
days later, a peer updated at that very evaluation instant lies inside the
claim's evaluation-time window yet the code excludes it (and enqueues
nothing), because the source's interval was frozen at module load. -/
theorem c3_eval_time_counterexample :
    linkAdmittedByClaim (2 * dayMs) freshPeer = true ∧
    linkFilter (oneMonthAgo 0) freshPeer = false ∧
    exploreDiscovered (oneMonthAgo 0) [freshPeer] = [] := by
  refine ⟨by decide, by decide, by decide⟩

/-- C3 amended: admission is exactly supported software plus a timestamp
(`updated` falling back to `published`) inside the 30-day window measured
from the module-load reference `t` (not from the evaluation-time clock); a
link 31 days older than that reference is excluded, 29 days older is
included, and one with neither timestamp is excluded; admitted links are
normalized into the discovery list. -/
theorem c3_amended_recency_window :
    (∀ t l, linkFilter (oneMonthAgo t) l = true ↔
      ((∃ sw, l.software = some sw ∧ isSupportedSoftware sw = true) ∧
        ∃ d, l.updated.orElse (fun _ => l.published) = some d ∧
          subDays t 30 ≤ d ∧ d ≤ t)) ∧
    (∀ t dom sw, isSupportedSoftware sw = true →
      linkFilter (oneMonthAgo t)
        { domain := dom, software := some sw, published := none,
          updated := some (subDays t 31) } = false ∧
      linkFilter (oneMonthAgo t)
        { domain := dom, software := some sw, published := none,
          updated := some (subDays t 29) } = true ∧
      linkFilter (oneMonthAgo t)
        { domain := dom, software := some sw, published := none,
          updated := none } = false) ∧
    (∀ t links l, l ∈ links → linkFilter (oneMonthAgo t) l = true →
      normalizeInstance l.domain ∈ exploreDiscovered (oneMonthAgo t) links) := by
  refine ⟨?_, ?_, ?_⟩
  · intro t l
    unfold linkFilter
    rw [Bool.and_eq_true]
    cases hsw : l.software with
    | none => simp
    | some sw =>
      cases hupd : l.updated.orElse (fun _ => l.published) with
      | none => simp
      | some d =>
        unfold dateLessThanOneMonthAgo isWithinInterval oneMonthAgo
        simp
  · intro t dom sw hsw
    refine ⟨?_, ?_, ?_⟩
    · simp [linkFilter, hsw, Option.orElse, dateLessThanOneMonthAgo,
        isWithinInterval, oneMonthAgo, subDays, dayMs]
      omega
    · simp [linkFilter, hsw, Option.orElse, dateLessThanOneMonthAgo,
        isWithinInterval, oneMonthAgo, subDays, dayMs]
      omega
    · simp [linkFilter, hsw, Option.orElse]
  · intro t links l hmem hfilt
    exact List.mem_map_of_mem _ (List.mem_filter.mpr ⟨hmem, hfilt⟩)

/-- C3 witness: the boundary clauses applied at the load reference 0. -/
theorem c3_amended_recency_window_witness :
    linkFilter (oneMonthAgo 0) boundaryPeer = true ∧
    normalizeInstance "d.example" ∈ exploreDiscovered (oneMonthAgo 0) [boundaryPeer] := by
  have h2 : linkFilter (oneMonthAgo 0) boundaryPeer = true :=
    (c3_amended_recency_window.2.1 0 "d.example" "lemmy" (by decide)).2.1
  exact ⟨h2,
    c3_amended_recency_window.2.2 0 [boundaryPeer] boundaryPeer (by simp) h2⟩

/-- C7: evaluating the timer model at a run that drains naturally at 30 s
(observed to 50 s) shows exactly one final write, yet periodic snapshots
keep firing after it, because only the deadline handler ever clears the
snapshot interval; the timed-out run (drain would be at 1500 s, observed to
1260 s) behaves as the claim says: one final write at the deadline and no
periodic write after it. -/
theorem c7_drained_interval_not_cleared :
    ((crawlEvents 30000 50000).filter isFinalWrite) = [CrawlEvent.finalWrite 30000] ∧
    ((crawlEvents 30000 50000).filter (isPeriodicAfter 30000)) =
      [CrawlEvent.periodicWrite 40000, CrawlEvent.periodicWrite 50000] ∧
    ((crawlEvents 1500000 1260000).filter isFinalWrite) =
      [CrawlEvent.finalWrite 1200000] ∧
    ((crawlEvents 1500000 1260000).filter (isPeriodicAfter 1200000)) = [] := by
  refine ⟨by decide, by decide, by decide, by decide⟩

/-- The qualification test, spelled out. -/
theorem qualifies_iff (sv : SiteView) :
    qualifies sv = true ↔
      MIN_MAU ≤ sv.users_active_month ∧ sv.private_instance = false := by
  unfold qualifies
  rw [Bool.and_eq_true]
  simp

/-- Handler shape on the lemmy v1 branch: no discovery, no push. -/
theorem requestHandler_lemmy_v1 {iv : DateInterval} {w : World} {url : String}
    {raw : RawNodeInfo} (hn : (w (normalizeInstance url)).nodeInfo = .ok raw)
    (h1 : raw.name = "lemmy") (h2 : startsWithOneDot raw.version.toList = true) :
    requestHandler iv w url = .ok { discovered := [], pushed := [] } := by
  have h2d : startsWithOneDot raw.version.data = true := h2
  unfold requestHandler handleInstance
  rw [hn]
  simp [parseNodeInfo, h1, h2d]

/-- Handler shape on the full lemmy branch. -/
theorem requestHandler_lemmy_full {iv : DateInterval} {w : World} {url : String}
    {raw : RawNodeInfo} {links : List PeerLink} {sv : SiteView}
    (hn : (w (normalizeInstance url)).nodeInfo = .ok raw)
    (h1 : raw.name = "lemmy") (h2 : startsWithOneDot raw.version.toList = false)
    (hf : (w (normalizeInstance url)).federated = .ok links)
    (hs : (w (normalizeInstance url)).site = .ok sv) :
    requestHandler iv w url = .ok
      { discovered := exploreDiscovered iv links,
        pushed :=
          if qualifies sv then
            [mkInstance (normalizeInstance url) (hostOf (normalizeInstance url)) .lemmy sv]
          else [] } := by
  have h2d : startsWithOneDot raw.version.data = false := h2
  unfold requestHandler handleInstance
  rw [hn]
  simp [parseNodeInfo, h1, h2d, fullBranch, hf, hs]

/-- Handler shape on the piefed branch. -/
theorem requestHandler_piefed_full {iv : DateInterval} {w : World} {url : String}
    {raw : RawNodeInfo} {links : List PeerLink} {sv : SiteView}
    (hn : (w (normalizeInstance url)).nodeInfo = .ok raw)
    (h1 : raw.name = "piefed")
    (hf : (w (normalizeInstance url)).federated = .ok links)
    (hs : (w (normalizeInstance url)).site = .ok sv) :
    requestHandler iv w url = .ok
      { discovered := exploreDiscovered iv links,
        pushed :=
          if qualifies sv then
            [mkInstance (normalizeInstance url) (hostOf (normalizeInstance url)) .piefed sv]
          else [] } := by
  unfold requestHandler handleInstance
  rw [hn]
  have h2 : ¬raw.name = "lemmy" := by
    rw [h1]
    decide
  simp [parseNodeInfo, h1, h2, fullBranch, hf, hs]

/-- Handler shape on an unrecognized software name: the enum validation
fails, a shape-mismatch error. -/
theorem requestHandler_unknown {iv : DateInterval} {w : World} {url : String}
    {raw : RawNodeInfo} (hn : (w (normalizeInstance url)).nodeInfo = .ok raw)
    (h1 : ¬raw.name = "lemmy") (h2 : ¬raw.name = "piefed") :
    requestHandler iv w url = .error .shapeMismatch := by
  unfold requestHandler handleInstance
  rw [hn]
  simp [parseNodeInfo, h1, h2]

/-- Facts about the conditional push of the qualification step. -/
theorem pushedIf_facts (sv : SiteView) (x : Instance) :
    ((if qualifies sv then [x] else []) ≠ [] ↔
      MIN_MAU ≤ sv.users_active_month ∧ sv.private_instance = false) ∧
    (sv.users_active_month = 19 → (if qualifies sv then [x] else []) = []) ∧
    (sv.users_active_month = 20 → sv.private_instance = false →
      (if qualifies sv then [x] else []) ≠ []) ∧
    (sv.private_instance = true → (if qualifies sv then [x] else []) = []) := by
  by_cases hq : qualifies sv = true
  · have hcond := (qualifies_iff sv).mp hq
    rw [if_pos hq]
    refine ⟨by simp [hcond], ?_, fun _ _ => by simp, ?_⟩
    · intro h19
      exfalso
      have := hcond.1
      rw [h19] at this
      unfold MIN_MAU at this
      omega
    · intro hp
      exfalso
      rw [hp] at hcond
      exact Bool.noConfusion hcond.2
  · have hcond : ¬(MIN_MAU ≤ sv.users_active_month ∧ sv.private_instance = false) :=
      fun hc => hq ((qualifies_iff sv).mpr hc)
    rw [if_neg hq]
    refine ⟨by simp [hcond], fun _ => rfl, ?_, fun _ => rfl⟩
    intro h20 hp
    exfalso
    apply hcond
    rw [h20, hp]
    exact ⟨by unfold MIN_MAU; omega, rfl⟩

/-- C2: on any server reaching the site-metadata step (lemmy not on the 1.x
branch, or piefed), a record is pushed iff the active-month count is at
least the threshold 20 and the instance is not private; 19 users yield no
entry, 20 users on a public instance do, and a private instance never
yields one. -/
theorem c2_qualification_iff (iv : DateInterval) (w : World) (url : String)
    (raw : RawNodeInfo) (links : List PeerLink) (sv : SiteView)
    (hn : (w (normalizeInstance url)).nodeInfo = .ok raw)
    (hname : raw.name = "lemmy" ∧ startsWithOneDot raw.version.toList = false ∨
      raw.name = "piefed")
    (hf : (w (normalizeInstance url)).federated = .ok links)
    (hs : (w (normalizeInstance url)).site = .ok sv) :
    ∃ out, requestHandler iv w url = .ok out ∧
      (out.pushed ≠ [] ↔
        MIN_MAU ≤ sv.users_active_month ∧ sv.private_instance = false) ∧
      (sv.users_active_month = 19 → out.pushed = []) ∧
      (sv.users_active_month = 20 → sv.private_instance = false → out.pushed ≠ []) ∧
      (sv.private_instance = true → out.pushed = []) := by
  rcases hname with ⟨h1, h2⟩ | h1
  · refine ⟨_, requestHandler_lemmy_full hn h1 h2 hf hs, ?_⟩
    exact pushedIf_facts sv _
  · refine ⟨_, requestHandler_piefed_full hn h1 hf hs, ?_⟩
    exact pushedIf_facts sv _

/-- C2 witness: a boundary-count public piefed server yields an entry. -/
theorem c2_qualification_iff_witness :
    ∃ out, requestHandler (oneMonthAgo 0) (fun _ => piefedBoundaryServer)
        "https://p.example" = .ok out ∧ out.pushed ≠ [] := by
  obtain ⟨out, hout, _, _, h20, _⟩ :=
    c2_qualification_iff (oneMonthAgo 0) (fun _ => piefedBoundaryServer)
      "https://p.example" { name := "piefed", version := "1.0.0" } [] svBoundary
      rfl (Or.inr rfl) rfl rfl
  exact ⟨out, hout, h20 rfl rfl⟩

/-- C5: on a server whose nodeinfo names unrecognized software, the handler
does not drop the address silently: the enum validation throws, so the task
ends in a shape-mismatch error (which the task layer then retries like any
failure), contradicting the claim's "without treating it as an error". -/
theorem c5_unknown_software_counterexample :
    requestHandler (oneMonthAgo 0) mastodonWorld "https://m.example" =
      .error .shapeMismatch :=
  requestHandler_unknown rfl (by decide) (by decide)

/-- C5 amended: lemmy with a version starting "1." is routed to the branch
with no discovery and no store entry; lemmy otherwise (for example "2.0.0")
gets the full v3 branch; an unrecognized software name fails nodeinfo
validation, so the task errors with a shape mismatch — it is handled through
the error path (retried at the task layer, then dropped), not as a
recognized terminal branch — and has no effect on the crawl state. -/
theorem c5_amended_dispatcher :
    (∀ (iv : DateInterval) (w : World) (url : String) (raw : RawNodeInfo),
      (w (normalizeInstance url)).nodeInfo = .ok raw → raw.name = "lemmy" →
      startsWithOneDot raw.version.toList = true →
      requestHandler iv w url = .ok { discovered := [], pushed := [] }) ∧
    (∀ (iv : DateInterval) (w : World) (url : String) (raw : RawNodeInfo)
        (links : List PeerLink) (sv : SiteView),
      (w (normalizeInstance url)).nodeInfo = .ok raw → raw.name = "lemmy" →
      startsWithOneDot raw.version.toList = false →
      (w (normalizeInstance url)).federated = .ok links →
      (w (normalizeInstance url)).site = .ok sv →
      requestHandler iv w url = .ok
        { discovered := exploreDiscovered iv links,
          pushed :=
            if qualifies sv then
              [mkInstance (normalizeInstance url) (hostOf (normalizeInstance url))
                .lemmy sv]
            else [] }) ∧
    (∀ (iv : DateInterval) (w : World) (url : String) (raw : RawNodeInfo),
      (w (normalizeInstance url)).nodeInfo = .ok raw →
      ¬raw.name = "lemmy" → ¬raw.name = "piefed" →
      requestHandler iv w url = .error .shapeMismatch ∧
      ∀ st, stepAddr iv w st url = st) ∧
    (startsWithOneDot "1.4.0".toList = true ∧
      startsWithOneDot "2.0.0".toList = false) := by
  refine ⟨fun iv w url raw hn h1 h2 => requestHandler_lemmy_v1 hn h1 h2,
    fun iv w url raw links sv hn h1 h2 hf hs =>
      requestHandler_lemmy_full hn h1 h2 hf hs,
    fun iv w url raw hn h1 h2 => ?_, by decide, by decide⟩
  have herr : requestHandler iv w url = .error .shapeMismatch :=
    requestHandler_unknown hn h1 h2
  refine ⟨herr, fun st => ?_⟩
  unfold stepAddr
  rw [herr]

/-- C5 witness: the three dispatcher routes at concrete servers. -/
theorem c5_amended_dispatcher_witness :
    requestHandler (oneMonthAgo 0) lemmy14World "https://v1.example" =
      .ok { discovered := [], pushed := [] } ∧
    requestHandler (oneMonthAgo 0) lemmyWorld "https://b.example" =
      .ok { discovered := [],
            pushed := [mkInstance "https://b.example" "b.example" .lemmy svPublic] } ∧
    requestHandler (oneMonthAgo 0) mastodonWorld "https://n.example" =
      .error .shapeMismatch := by
  refine ⟨c5_amended_dispatcher.1 _ _ _ _ rfl rfl (by decide), ?_,
    (c5_amended_dispatcher.2.2.1 _ _ _ _ rfl (by decide) (by decide)).1⟩
  have h := c5_amended_dispatcher.2.1 (oneMonthAgo 0) lemmyWorld "https://b.example"
    { name := "lemmy", version := "2.0.0" } [] svPublic rfl rfl (by decide) rfl rfl
  rw [h]
  rfl

/-- C6: every snapshot is a permutation of the current store contents,
sorted ascending by host — for any store, hence for any insertion order,
and recomputed from the store contents alone. -/
theorem c6_snapshot_sorted (items : List Instance) :
    (writeSnapshot items).Perm items ∧
    (writeSnapshot items).Pairwise (fun a b => a.host ≤ b.host) := by
  unfold writeSnapshot
  constructor
  · exact List.mergeSort_perm items _
  · have h : (items.mergeSort (fun a b => decide (a.host ≤ b.host))).Pairwise
        (fun a b => decide (a.host ≤ b.host) = true) :=
      List.sorted_mergeSort
        (fun a b c hab hbc => by
          simp only [decide_eq_true_eq] at hab hbc ⊢
          exact le_trans hab hbc)
        (fun a b => by
          simp only [Bool.or_eq_true, decide_eq_true_eq]
          exact le_total a.host b.host)
        items
    exact h.imp (fun hab => by simpa using hab)

/-- C8: the Protocol Client makes one attempt with the default 5000 ms
request timeout and signals the cause of each failure: timeout, connection
failure, non-2xx status, or shape mismatch; a validated 2xx body is
returned. -/
theorem c8_protocol_client_errors :
    (∀ (α : Type) (outcome : FetchOutcome) (arrival : Nat)
        (parse : String → Option α),
      5000 ≤ arrival → getResponse outcome arrival parse = .error .timeout) ∧
    (∀ (α : Type) (arrival : Nat) (parse : String → Option α), arrival < 5000 →
      getResponse .connError arrival parse = .error .connFailure) ∧
    (∀ (α : Type) (r : RawResponse) (arrival : Nat) (parse : String → Option α),
      arrival < 5000 → is2xx r.status = false →
      getResponse (.ok r) arrival parse = .error (.httpStatus r.status)) ∧
    (∀ (α : Type) (r : RawResponse) (arrival : Nat) (parse : String → Option α),
      arrival < 5000 → is2xx r.status = true → parse r.body = none →
      getResponse (.ok r) arrival parse = .error .shapeMismatch) ∧
    (∀ (α : Type) (r : RawResponse) (arrival : Nat) (parse : String → Option α)
        (a : α),
      arrival < 5000 → is2xx r.status = true → parse r.body = some a →
      getResponse (.ok r) arrival parse = .ok a) ∧
    (∀ (outcome : FetchOutcome) (arrival : Nat),
      fetchWithTimeout outcome arrival = fetchWithTimeout outcome arrival 5000) := by
  refine ⟨?_, ?_, ?_, ?_, ?_, fun _ _ => rfl⟩
  · intro α outcome arrival parse h
    unfold getResponse fetchWithTimeout
    rw [if_pos h]
  · intro α arrival parse h
    unfold getResponse fetchWithTimeout
    rw [if_neg (by omega)]
  · intro α r arrival parse h h2
    unfold getResponse fetchWithTimeout
    rw [if_neg (by omega)]
    simp [h2]
  · intro α r arrival parse h h2 hp
    unfold getResponse fetchWithTimeout
    rw [if_neg (by omega)]
    simp [h2, hp]
  · intro α r arrival parse a h h2 hp
    unfold getResponse fetchWithTimeout
    rw [if_neg (by omega)]
    simp [h2, hp]

/-- C8 witness: each clause at a concrete request. -/
theorem c8_protocol_client_errors_witness :
    getResponse .connError 6000 (fun _ => some 7) = .error .timeout ∧
    getResponse .connError 100 (fun _ => some 7) = .error .connFailure ∧
    getResponse (.ok { status := 404, body := "nope" }) 100 (fun _ => some 7) =
      .error (.httpStatus 404) ∧
    getResponse (.ok { status := 200, body := "bad" }) 100
      (fun (_ : String) => (none : Option Nat)) = .error .shapeMismatch ∧
    getResponse (.ok { status := 200, body := "good" }) 100 (fun _ => some 7) = .ok 7 :=
  ⟨c8_protocol_client_errors.1 Nat .connError 6000 _ (by omega),
   c8_protocol_client_errors.2.1 Nat 100 _ (by omega),
   c8_protocol_client_errors.2.2.1 Nat _ 100 _ (by omega) (by decide),
   c8_protocol_client_errors.2.2.2.1 Nat _ 100 _ (by omega) (by decide) rfl,
   c8_protocol_client_errors.2.2.2.2.1 Nat _ 100 _ 7 (by omega) (by decide) rfl⟩

/-- A run whose every attempt up to the remaining budget fails is dropped. -/
theorem runTaskFrom_dropped (attempts : Nat → AttemptOutcome) :
    ∀ (n k : Nat), (∀ j, j ≤ n → ∀ out, attempts (k + j) ≠ .ok out) →
      runTaskFrom attempts k n = .dropped := by
  intro n
  induction n with
  | zero =>
    intro k h
    rw [runTaskFrom]
    cases hx : attempts k with
    | ok out => exact absurd hx (h 0 (Nat.le_refl 0) out)
    | failed e => rfl
    | timedOut => rfl
  | succ n ih =>
    intro k h
    rw [runTaskFrom]
    cases hx : attempts k with
    | ok out => exact absurd hx (h 0 (by omega) out)
    | failed e =>
      refine ih (k + 1) (fun j hj out => ?_)
      have h2 := h (j + 1) (by omega) out
      have heq : k + (j + 1) = k + 1 + j := by omega
      rw [heq] at h2
      exact h2
    | timedOut =>
      refine ih (k + 1) (fun j hj out => ?_)
      have h2 := h (j + 1) (by omega) out
      have heq : k + (j + 1) = k + 1 + j := by omega
      rw [heq] at h2
      exact h2

/-- A first success inside the remaining budget completes the task with that
attempt's outcome. -/
theorem runTaskFrom_completed (attempts : Nat → AttemptOutcome) :
    ∀ (n k d : Nat) (out : HandlerOutcome), d ≤ n →
      (∀ j, j < d → ∀ o, attempts (k + j) ≠ .ok o) →
      attempts (k + d) = .ok out → runTaskFrom attempts k n = .completed out := by
  intro n
  induction n with
  | zero =>
    intro k d out hd hfail hok
    have hd0 : d = 0 := by omega
    subst hd0
    rw [runTaskFrom, show attempts k = .ok out from hok]
  | succ n ih =>
    intro k d out hd hfail hok
    cases d with
    | zero =>
      rw [runTaskFrom, show attempts k = .ok out from hok]
    | succ d =>
      rw [runTaskFrom]
      cases hx : attempts k with
      | ok o => exact absurd hx (hfail 0 (by omega) o)
      | failed e =>
        refine ih (k + 1) d out (by omega) (fun j hj o => ?_) ?_
        · have h2 := hfail (j + 1) (by omega) o
          have heq : k + (j + 1) = k + 1 + j := by omega
          rw [heq] at h2
          exact h2
        · have heq : k + (d + 1) = k + 1 + d := by omega
          rw [heq] at hok
          exact hok
      | timedOut =>
        refine ih (k + 1) d out (by omega) (fun j hj o => ?_) ?_
        · have h2 := hfail (j + 1) (by omega) o
          have heq : k + (j + 1) = k + 1 + j := by omega
          rw [heq] at h2
          exact h2
        · have heq : k + (d + 1) = k + 1 + d := by omega
          rw [heq] at hok
          exact hok

/-- C9: the configured per-task timeout is 10 s and the retry limit 3; a
task whose attempts 0 through 3 all fail (error or task timeout) is dropped,
a task whose first success comes at attempt at most 3 completes with it, and
a handler failure on one address leaves the crawl state — ledger, frontier
and store — untouched, so no per-address failure reaches the pool or another
task. -/
theorem c9_task_retry_isolation :
    crawlerConfig.requestHandlerTimeoutSecs = 10 ∧
    crawlerConfig.maxRequestRetries = 3 ∧
    (∀ attempts : Nat → AttemptOutcome,
      (∀ k, k ≤ 3 → ∀ out, attempts k ≠ .ok out) → runTask attempts = .dropped) ∧
    (∀ (attempts : Nat → AttemptOutcome) (d : Nat) (out : HandlerOutcome),
      d ≤ 3 → (∀ j, j < d → ∀ o, attempts j ≠ .ok o) → attempts d = .ok out →
      runTask attempts = .completed out) ∧
    (∀ (iv : DateInterval) (w : World) (st : CrawlState) (addr : String)
        (e : RequestError),
      requestHandler iv w addr = .error e → stepAddr iv w st addr = st) := by
  refine ⟨rfl, rfl, ?_, ?_, ?_⟩
  · intro attempts h
    exact runTaskFrom_dropped attempts 3 0
      (fun j hj out => by simpa using h j hj out)
  · intro attempts d out hd hfail hok
    exact runTaskFrom_completed attempts 3 0 d out hd
      (fun j hj o => by simpa using hfail j hj o) (by simpa using hok)
  · intro iv w st addr e h
    unfold stepAddr
    rw [h]

/-- C9 witness: a task timing out forever is dropped; one succeeding on its
third attempt completes; a failing address leaves the state unchanged. -/
theorem c9_task_retry_isolation_witness :
    runTask (fun _ => .timedOut) = .dropped ∧
    runTask (fun k => if k = 2 then .ok { discovered := [], pushed := [] }
      else .timedOut) = .completed { discovered := [], pushed := [] } ∧
    stepAddr (oneMonthAgo 0) mastodonWorld
      { ledger := [], pending := [], store := [] } "https://m.example" =
      { ledger := [], pending := [], store := [] } := by
  refine ⟨c9_task_retry_isolation.2.2.1 _ (fun k hk out => by simp), ?_, ?_⟩
  · refine c9_task_retry_isolation.2.2.2.1 _ 2 _ (by omega) (fun j hj o => ?_) (by simp)
    intro hc
    rw [if_neg (by omega)] at hc
    exact AttemptOutcome.noConfusion hc
  · exact c9_task_retry_isolation.2.2.2.2 _ _ _ _ .shapeMismatch
      (requestHandler_unknown rfl (by decide) (by decide))

/-- One enqueue preserves the invariant. -/
theorem tryEnqueue_ok {st : CrawlState} (h : StateOk st) (b : String) :
    StateOk (tryEnqueue st b) := by
  obtain ⟨hnd, hsub⟩ := h
  unfold tryEnqueue
  by_cases hb : b ∈ st.ledger
  · rw [if_pos hb]
    exact ⟨hnd, hsub⟩
  · rw [if_neg hb]
    refine ⟨List.Nodup.append hnd (List.nodup_singleton b) ?_, ?_⟩
    · intro a ha hab
      have : a = b := by simpa using hab
      rw [this] at ha
      exact hb (hsub b ha)
    · intro a ha
      rcases List.mem_append.mp ha with h1 | h1
      · exact List.mem_cons_of_mem _ (hsub a h1)
      · have : a = b := by simpa using h1
        rw [this]
        exact List.mem_cons_self _ _

/-- The ledger only grows under an enqueue. -/
theorem tryEnqueue_ledger {st : CrawlState} {a : String} (h : a ∈ st.ledger)
    (b : String) : a ∈ (tryEnqueue st b).ledger := by
  unfold tryEnqueue
  by_cases hb : b ∈ st.ledger
  · rw [if_pos hb]
    exact h
  · rw [if_neg hb]
    exact List.mem_cons_of_mem _ h

/-- An address already in the ledger and off the frontier stays off it. -/
theorem tryEnqueue_out {st : CrawlState} {a : String} (hl : a ∈ st.ledger)
    (hp : a ∉ st.pending) (b : String) : a ∉ (tryEnqueue st b).pending := by
  unfold tryEnqueue
  by_cases hb : b ∈ st.ledger
  · rw [if_pos hb]
    exact hp
  · rw [if_neg hb]
    intro hmem
    rcases List.mem_append.mp hmem with h1 | h1
    · exact hp h1
    · have : a = b := by simpa using h1
      rw [this] at hl
      exact hb hl

/-- Enqueues leave the store untouched. -/
theorem tryEnqueue_store (st : CrawlState) (b : String) :
    (tryEnqueue st b).store = st.store := by
  unfold tryEnqueue
  by_cases hb : b ∈ st.ledger
  · rw [if_pos hb]
  · rw [if_neg hb]

/-- `enqueueAll` preserves the invariant. -/
theorem enqueueAll_ok {st : CrawlState} (h : StateOk st) (l : List String) :
    StateOk (enqueueAll st l) := by
  induction l generalizing st with
  | nil => exact h
  | cons x xs ih => exact ih (tryEnqueue_ok h x)

/-- `enqueueAll` only grows the ledger. -/
theorem enqueueAll_ledger {st : CrawlState} {a : String} (h : a ∈ st.ledger)
    (l : List String) : a ∈ (enqueueAll st l).ledger := by
  induction l generalizing st with
  | nil => exact h
  | cons x xs ih => exact ih (tryEnqueue_ledger h x)

/-- `enqueueAll` never reintroduces a ledgered address to the frontier. -/
theorem enqueueAll_out {st : CrawlState} {a : String} (hl : a ∈ st.ledger)
    (hp : a ∉ st.pending) (l : List String) : a ∉ (enqueueAll st l).pending := by
  induction l generalizing st with
  | nil => exact hp
  | cons x xs ih => exact ih (tryEnqueue_ledger hl x) (tryEnqueue_out hl hp x)

/-- `enqueueAll` leaves the store untouched. -/
theorem enqueueAll_store (st : CrawlState) (l : List String) :
    (enqueueAll st l).store = st.store := by
  induction l generalizing st with
  | nil => rfl
  | cons x xs ih => exact (ih (tryEnqueue st x)).trans (tryEnqueue_store st x)

/-- A successful handler run pushes at most one record. -/
theorem requestHandler_pushed_le_one {iv : DateInterval} {w : World}
    {url : String} {out : HandlerOutcome}
    (h : requestHandler iv w url = .ok out) : out.pushed.length ≤ 1 := by
  unfold requestHandler handleInstance fullBranch at h
  repeat' split at h
  all_goals try cases h
  all_goals simp

/-- Processing one address preserves the frontier invariant. -/
theorem stepAddr_ok {iv : DateInterval} {w : World} {st : CrawlState}
    (h : StateOk st) (addr : String) : StateOk (stepAddr iv w st addr) := by
  unfold stepAddr
  cases hr : requestHandler iv w addr with
  | error e => exact h
  | ok out => exact enqueueAll_ok h out.discovered

/-- Processing one address only grows the ledger. -/
theorem stepAddr_ledger {iv : DateInterval} {w : World} {st : CrawlState}
    {a : String} (h : a ∈ st.ledger) (addr : String) :
    a ∈ (stepAddr iv w st addr).ledger := by
  unfold stepAddr
  cases hr : requestHandler iv w addr with
  | error e => exact h
  | ok out => exact enqueueAll_ledger h out.discovered

/-- Processing one address never reintroduces a ledgered address. -/
theorem stepAddr_out {iv : DateInterval} {w : World} {st : CrawlState}
    {a : String} (hl : a ∈ st.ledger) (hp : a ∉ st.pending) (addr : String) :
    a ∉ (stepAddr iv w st addr).pending := by
  unfold stepAddr
  cases hr : requestHandler iv w addr with
  | error e => exact hp
  | ok out => exact enqueueAll_out hl hp out.discovered

/-- Processing one address grows the store by at most one record. -/
theorem stepAddr_store_le (iv : DateInterval) (w : World) (st : CrawlState)
    (addr : String) :
    (stepAddr iv w st addr).store.length ≤ st.store.length + 1 := by
  cases hr : requestHandler iv w addr with
  | error e =>
    have hstep : stepAddr iv w st addr = st := by
      unfold stepAddr
      rw [hr]
    rw [hstep]
    omega
  | ok out =>
    have hstep : (stepAddr iv w st addr).store = st.store ++ out.pushed := by
      unfold stepAddr
      rw [hr]
      simp [enqueueAll_store]
    have hlen := requestHandler_pushed_le_one hr
    rw [hstep]
    simp only [List.length_append]
    omega

/-- Popping the frontier head keeps the invariant; the popped address is
ledgered and absent from the remaining frontier. -/
theorem stateOk_tail {st : CrawlState} {b : String} {rest : List String}
    (hok : StateOk st) (hpend : st.pending = b :: rest) :
    StateOk { st with pending := rest } ∧ b ∈ st.ledger ∧ b ∉ rest := by
  obtain ⟨hnd, hsub⟩ := hok
  rw [hpend] at hnd hsub
  refine ⟨⟨(List.nodup_cons.mp hnd).2,
      fun x hx => hsub x (List.mem_cons_of_mem _ hx)⟩,
    hsub b (List.mem_cons_self _ _), (List.nodup_cons.mp hnd).1⟩

/-- An address that is ledgered and off the frontier is never processed by
the remaining crawl. -/
theorem crawlTrace_not_mem (iv : DateInterval) (w : World) :
    ∀ (fuel : Nat) (st : CrawlState) (a : String), StateOk st → a ∈ st.ledger →
      a ∉ st.pending → a ∉ (crawlTrace iv w fuel st).2 := by
  intro fuel
  induction fuel with
  | zero =>
    intro st a _ _ _
    simp [crawlTrace]
  | succ n ih =>
    intro st a hok hl hp
    rw [crawlTrace]
    cases hpend : st.pending with
    | nil => simp
    | cons b rest =>
      show a ∉ b :: (crawlTrace iv w n (stepAddr iv w { st with pending := rest } b)).2
      intro hmem
      rcases List.mem_cons.mp hmem with hab | hmem2
      · apply hp
        rw [hpend, hab]
        exact List.mem_cons_self _ _
      · obtain ⟨hok', _, _⟩ := stateOk_tail hok hpend
        have hl' : a ∈ ({ st with pending := rest } : CrawlState).ledger := hl
        have hp' : a ∉ ({ st with pending := rest } : CrawlState).pending := by
          intro hx
          apply hp
          rw [hpend]
          exact List.mem_cons_of_mem _ hx
        exact ih (stepAddr iv w { st with pending := rest } b) a
          (stepAddr_ok hok' b) (stepAddr_ledger hl' b) (stepAddr_out hl' hp' b) hmem2

/-- Under the frontier invariant, no address is processed twice. -/
theorem crawlTrace_nodup (iv : DateInterval) (w : World) :
    ∀ (fuel : Nat) (st : CrawlState), StateOk st →
      (crawlTrace iv w fuel st).2.Nodup := by
  intro fuel
  induction fuel with
  | zero =>
    intro st _
    simp [crawlTrace]
  | succ n ih =>
    intro st hok
    rw [crawlTrace]
    cases hpend : st.pending with
    | nil => simp
    | cons b rest =>
      show (b :: (crawlTrace iv w n (stepAddr iv w { st with pending := rest } b)).2).Nodup
      obtain ⟨hok', hbl, hbr⟩ := stateOk_tail hok hpend
      have hbl' : b ∈ ({ st with pending := rest } : CrawlState).ledger := hbl
      have hbr' : b ∉ ({ st with pending := rest } : CrawlState).pending := hbr
      refine List.nodup_cons.mpr ⟨?_, ih _ (stepAddr_ok hok' b)⟩
      exact crawlTrace_not_mem iv w n _ b (stepAddr_ok hok' b)
        (stepAddr_ledger hbl' b) (stepAddr_out hbl' hbr' b)

/-- The store grows by at most one record per processed address. -/
theorem crawlTrace_store_le (iv : DateInterval) (w : World) :
    ∀ (fuel : Nat) (st : CrawlState),
      (crawlTrace iv w fuel st).1.store.length ≤
        st.store.length + (crawlTrace iv w fuel st).2.length := by
  intro fuel
  induction fuel with
  | zero =>
    intro st
    simp [crawlTrace]
  | succ n ih =>
    intro st
    rw [crawlTrace]
    cases hpend : st.pending with
    | nil => simp
    | cons b rest =>
      show (crawlTrace iv w n (stepAddr iv w { st with pending := rest } b)).1.store.length ≤
        st.store.length +
          (b :: (crawlTrace iv w n (stepAddr iv w { st with pending := rest } b)).2).length
      have h1 := ih (stepAddr iv w { st with pending := rest } b)
      have h2 := stepAddr_store_le iv w { st with pending := rest } b
      have h3 : ({ st with pending := rest } : CrawlState).store = st.store := rfl
      rw [h3] at h2
      simp only [List.length_cons]
      omega

/-- C1 amended: in every run, the request-queue dedup guarantees each
enqueued address is processed at most once and the Result Store gains at
most one record per processed address; distinct records therefore stem from
distinct enqueued addresses, but nothing keys them by host. -/
theorem c1_amended_dedup_per_address (iv : DateInterval) (w : World)
    (seeds : List String) (fuel : Nat) :
    (runCrawlTrace iv w seeds fuel).2.Nodup ∧
    (runCrawlTrace iv w seeds fuel).1.store.length ≤
      (runCrawlTrace iv w seeds fuel).2.length := by
  have hok : StateOk (enqueueAll { ledger := [], pending := [], store := [] } seeds) :=
    enqueueAll_ok ⟨List.nodup_nil, by simp⟩ seeds
  constructor
  · exact crawlTrace_nodup iv w fuel _ hok
  · have h := crawlTrace_store_le iv w fuel
      (enqueueAll { ledger := [], pending := [], store := [] } seeds)
    have h2 : (enqueueAll { ledger := [], pending := [], store := [] } seeds).store =
        ([] : List Instance) :=
      enqueueAll_store _ seeds
    rw [h2] at h
    simpa using h

/-- C1: a run over `dupHostWorld` ends with two distinct Result Store
records — urls "https://b.example" and "http://b.example" — that share the
host "b.example": the enqueue dedup keys on the normalized URL string, not
on the host, so the store is not dedup-keyed by host. -/
theorem c1_same_host_counterexample :
    ((runCrawlTrace (oneMonthAgo 0) dupHostWorld ["https://a.example"] 10).1.store.map
        (fun i => (i.url, i.host))) =
      [("https://b.example", "b.example"), ("http://b.example", "b.example")] ∧
    ¬ (runCrawlTrace (oneMonthAgo 0) dupHostWorld ["https://a.example"] 10).1.store.Pairwise
        (fun a b => a.host ≠ b.host) := by
  refine ⟨by decide, by decide⟩
